import Mathlib

/-!
Shallow embedding of the commit-it message core: `src/core/validator.js`,
`src/core/formatter.js` and `src/config/defaults.js`.  JavaScript strings are
modelled as `List Char`; JS `null`/absent string fields as `Option`; the
JS truthiness of a string (`""` is falsy) as `truthy`/`strOpt`.  Character
classes follow the JS regex classes (`\w`, `\s`, `.` without the `s` flag);
case mapping is modelled on the ASCII range, which covers every character the
claims exercise.
-/

abbrev Str := List Char

def str (s : String) : Str := s.data

/-- JS regex `\s` / `String.prototype.trim` whitespace class. -/
def jsWs (c : Char) : Bool :=
  c = ' ' || c = '\t' || c = '\n' || c = '\u000b' || c = '\u000c' || c = '\r' ||
  c = '\u00a0' || c = '\u1680' || ('\u2000' ≤ c && c ≤ '\u200a') ||
  c = '\u2028' || c = '\u2029' || c = '\u202f' || c = '\u205f' ||
  c = '\u3000' || c = '\ufeff'

/-- JS `toLowerCase`, restricted to the ASCII range (core `Char.toLower`
maps exactly the letters `A`-`Z`). -/
def jsToLowerChar : Char → Char := Char.toLower

/-- JS `toUpperCase`, restricted to the ASCII range. -/
def jsToUpperChar : Char → Char := Char.toUpper

/-- JS regex `\w` class: `[A-Za-z0-9_]`. -/
def isWordChar (c : Char) : Bool := c.isAlpha || c.isDigit || c = '_'

/-- JS regex `[\w-]` class, used for the scope. -/
def isScopeChar (c : Char) : Bool := isWordChar c || c = '-'

/-- JS regex `.` (no `s` flag): anything but a line terminator. -/
def isDotChar (c : Char) : Bool :=
  !(c = '\n' || c = '\r' || c = '\u2028' || c = '\u2029')

/-- JS `String.prototype.trim`. -/
def trim (s : Str) : Str :=
  ((s.dropWhile jsWs).reverse.dropWhile jsWs).reverse

/-- JS `String.prototype.split` with a single-character separator.
`"".split(sep)` is `[""]`, and every separator occurrence splits. -/
def splitOnChar (sep : Char) : Str → List Str
  | [] => [[]]
  | c :: cs =>
    if c = sep then [] :: splitOnChar sep cs
    else
      match splitOnChar sep cs with
      | [] => [[c]]
      | l :: ls => (c :: l) :: ls

def splitNl : Str → List Str := splitOnChar '\n'

/-- JS `Array.prototype.join` with a fixed separator string. -/
def joinSep (sep : Str) : List Str → Str
  | [] => []
  | [x] => x
  | x :: y :: xs => x ++ sep ++ joinSep sep (y :: xs)

def joinNl : List Str → Str := joinSep ['\n']

/-- JS `String.prototype.includes`. -/
def containsSub (s pat : Str) : Bool :=
  (List.range (s.length + 1)).any (fun i => pat.isPrefixOf (s.drop i))

/-- JS `String.prototype.endsWith(".")`. -/
def endsWithPeriod (s : Str) : Bool :=
  match s.reverse with
  | c :: _ => c = '.'
  | [] => false

/-- JS truthiness of a string-or-null value: `null` and `""` are falsy. -/
def truthy : Option Str → Bool
  | none => false
  | some s => !s.isEmpty

/-- JS `x || null` on a string: the empty string collapses to `null`. -/
def strOpt (s : Str) : Option Str := if s.isEmpty then none else some s

/-- Decimal rendering of a number, as JS template interpolation does. -/
def natStr (n : Nat) : Str := (Nat.repr n).data

/-- JS `Array.prototype.includes` on an array of strings. -/
def includes (l : List Str) (x : Str) : Bool := l.any (fun y => y = x)

/-! ## src/config/defaults.js -/

structure CommitType where
  value : Str
  name : String
  emoji : String

def defaultTypes : List CommitType :=
  [⟨str "feat", "✨ feat:     A new feature", "✨"⟩,
   ⟨str "fix", "🐛 fix:      A bug fix", "🐛"⟩,
   ⟨str "docs", "📚 docs:     Documentation only changes", "📚"⟩,
   ⟨str "style", "💎 style:    Code style changes (formatting, semicolons, etc)", "💎"⟩,
   ⟨str "refactor", "📦 refactor: Code change that neither fixes a bug nor adds a feature", "📦"⟩,
   ⟨str "perf", "🚀 perf:     Performance improvements", "🚀"⟩,
   ⟨str "test", "🚨 test:     Adding or updating tests", "🚨"⟩,
   ⟨str "build", "🛠️  build:    Changes to build system or dependencies", "🛠️"⟩,
   ⟨str "ci", "⚙️  ci:       CI/CD configuration changes", "⚙️"⟩,
   ⟨str "chore", "♻️  chore:    Other changes that don't modify src or test files", "♻️"⟩,
   ⟨str "revert", "⏪ revert:   Reverts a previous commit", "⏪"⟩]

def defaultTypeValues : List Str := defaultTypes.map CommitType.value

/-- The merged `this.config` object of the Validator: `defaults.rules` keys,
plus a `types` key that an override may inject (no check ever reads it). -/
structure Rules where
  maxSubjectLength : Nat
  minSubjectLength : Nat
  maxLineLength : Nat
  enforceImperative : Bool
  subjectCase : String
  allowBreakingChanges : List Str
  types : Option (List Str) := none

def defaultRules : Rules :=
  { maxSubjectLength := 72
    minSubjectLength := 3
    maxLineLength := 100
    enforceImperative := true
    subjectCase := "lowercase"
    allowBreakingChanges := [str "feat", str "fix"] }

/-- A partial override mapping passed to the Validator constructor. -/
structure OverrideCfg where
  maxSubjectLength : Option Nat := none
  minSubjectLength : Option Nat := none
  maxLineLength : Option Nat := none
  enforceImperative : Option Bool := none
  subjectCase : Option String := none
  allowBreakingChanges : Option (List Str) := none
  types : Option (List Str) := none

/-- `{ ...defaults.rules, ...config }`: later (override) keys win. -/
def mergeRules (o : OverrideCfg) : Rules :=
  { maxSubjectLength := o.maxSubjectLength.getD defaultRules.maxSubjectLength
    minSubjectLength := o.minSubjectLength.getD defaultRules.minSubjectLength
    maxLineLength := o.maxLineLength.getD defaultRules.maxLineLength
    enforceImperative := o.enforceImperative.getD defaultRules.enforceImperative
    subjectCase := o.subjectCase.getD defaultRules.subjectCase
    allowBreakingChanges := o.allowBreakingChanges.getD defaultRules.allowBreakingChanges
    types := o.types }

/-! ## src/core/validator.js -/

structure Validator where
  config : Rules
  validTypes : List Str

/-- `constructor(config = {})`: merge onto `defaults.rules`; `validTypes`
is always `defaults.types.map(t => t.value)`. -/
def mkValidator (o : OverrideCfg) : Validator :=
  { config := mergeRules o
    validTypes := defaultTypes.map (fun t => t.value) }

def noOverride : OverrideCfg := {}

def emptyErr : String := "Commit message cannot be empty"

def headerFormatErr : String := "Header must follow format: type(scope): subject"

def typeLowercaseErr : String := "Type must be lowercase"

def invalidTypeErr (validTypes : List Str) (t : Str) : String :=
  String.mk (str "Invalid type \"" ++ t ++ str "\". Must be one of: " ++
    joinSep (str ", ") validTypes)

def subjTooLongErr (n maxLen : Nat) : String :=
  String.mk (str "Subject is too long (" ++ natStr n ++ str " chars). Maximum is " ++
    natStr maxLen)

def subjTooShortErr (n minLen : Nat) : String :=
  String.mk (str "Subject is too short (" ++ natStr n ++ str " chars). Minimum is " ++
    natStr minLen)

def subjPeriodErr : String := "Subject must not end with a period"

def subjMoodErr : String :=
  "Subject must use imperative mood (e.g., \"add\" not \"adds\" or \"added\")"

def subjCaseErr : String := "Subject must start with lowercase letter"

def bodyLineErr (i n maxLen : Nat) : String :=
  String.mk (str "Body line " ++ natStr i ++ str " is too long (" ++ natStr n ++
    str " chars). Maximum is " ++ natStr maxLen)

/-- The non-imperative forms recognised by `isImperative`, each pattern
`/^(…)\s/i` demanding a whitespace character right after the verb. -/
def nonImperativeStarts : List Str :=
  [str "adds", str "adding", str "added",
   str "fixes", str "fixing", str "fixed",
   str "updates", str "updating", str "updated",
   str "removes", str "removing", str "removed",
   str "creates", str "creating", str "created",
   str "implements", str "implementing", str "implemented",
   str "changes", str "changing", str "changed"]

def startsWithWordWs (w s : Str) : Bool :=
  w.isPrefixOf s &&
    (match s.drop w.length with
     | c :: _ => jsWs c
     | [] => false)

def isImperative (subject : Str) : Bool :=
  let ls := subject.map jsToLowerChar
  !(nonImperativeStarts.any (fun w => startsWithWordWs w ls))

/-- `subject[0] !== subject[0].toLowerCase()`.  The subject handed to
`validateSubject` always comes from the `(.+)` regex group and is non-empty,
so the empty case is unreachable from `validate`. -/
def subjCaseViolation (s : Str) : Bool :=
  match s with
  | [] => false
  | c :: _ => !(jsToLowerChar c = c)

def validateSubject (cfg : Rules) (subject : Str) : List String :=
  (if cfg.maxSubjectLength < subject.length then
      [subjTooLongErr subject.length cfg.maxSubjectLength] else [])
  ++ (if subject.length < cfg.minSubjectLength then
      [subjTooShortErr subject.length cfg.minSubjectLength] else [])
  ++ (if endsWithPeriod subject then [subjPeriodErr] else [])
  ++ (if cfg.enforceImperative && !(isImperative subject) then [subjMoodErr] else [])
  ++ (if cfg.subjectCase = "lowercase" && subjCaseViolation subject then
      [subjCaseErr] else [])

def tailOk (r3 : Str) (j : Nat) : Bool :=
  !(r3.drop j).isEmpty && (r3.drop j).all isDotChar

/-- Backtracking of the greedy `\s*` before `(.+)$`: try to give back
whitespace one character at a time until `.+` can match the rest. -/
def matchTailAux (r3 : Str) : Nat → Option Str
  | 0 => if tailOk r3 0 then some (r3.drop 0) else none
  | j + 1 => if tailOk r3 (j + 1) then some (r3.drop (j + 1)) else matchTailAux r3 j

/-- Matches `\s*(.+)$` against the text after the colon. -/
def matchTail (r3 : Str) : Option Str :=
  matchTailAux r3 (r3.takeWhile jsWs).length

/-- The optional scope group `(\(([\w-]+)\))?`: on success the inner
scope and the rest after `)`; on failure the group matches empty and the
position stays put. -/
def scanScope (r1 : Str) : Option Str × Str :=
  match r1 with
  | '(' :: rest =>
    let s := rest.takeWhile isScopeChar
    if s.isEmpty then (none, r1) else
    match rest.drop s.length with
    | ')' :: r2 => (some s, r2)
    | _ => (none, r1)
  | _ => (none, r1)

/-- The `:\s*(.+)$` part after type and scope group. -/
def finishHeader (t : Str) (scR : Option Str × Str) :
    Option (Str × Option Str × Str) :=
  match scR.2 with
  | ':' :: r3 =>
    match matchTail r3 with
    | some subj => some (t, scR.1, subj)
    | none => none
  | _ => none

/-- The header pattern `^(\w+)(\(([\w-]+)\))?:\s*(.+)$` shared by
`validateHeader` and `parse`; returns (type, scope without parentheses,
subject).  Greedy matching with the only feasible backtracking being the
`\s*` give-back before `(.+)`. -/
def matchHeader (line : Str) : Option (Str × Option Str × Str) :=
  let t := line.takeWhile isWordChar
  if t.isEmpty then none else
  finishHeader t (scanScope (line.drop t.length))

def validateHeader (v : Validator) (header : Str) : List String :=
  match matchHeader header with
  | none => [headerFormatErr]
  | some (t, _, subj) =>
    (if includes v.validTypes t then [] else [invalidTypeErr v.validTypes t])
    ++ (if t.map jsToLowerChar = t then [] else [typeLowercaseErr])
    ++ validateSubject v.config subj

def validateBodyAux (cfg : Rules) : Nat → List Str → List String
  | _, [] => []
  | i, l :: ls =>
    (if cfg.maxLineLength < l.length then
        [bodyLineErr (i + 1) l.length cfg.maxLineLength] else [])
    ++ validateBodyAux cfg (i + 1) ls

def validateBody (cfg : Rules) (ls : List Str) : List String :=
  validateBodyAux cfg 0 ls

structure VResult where
  valid : Bool
  errors : List String
  deriving DecidableEq

def validate (v : Validator) (m : Str) : VResult :=
  if m.isEmpty || (trim m).isEmpty then
    { valid := false, errors := [emptyErr] }
  else
    let lines := splitNl m
    let headerErrors := validateHeader v (lines.headD [])
    let errs := headerErrors ++
      (if 2 < lines.length then validateBody v.config (lines.drop 2) else [])
    { valid := errs.isEmpty, errors := errs }

def breakingColon : Str := str "BREAKING CHANGE:"

def footerLineStart (l : Str) : Bool :=
  (str "BREAKING CHANGE:").isPrefixOf l || (str "Closes").isPrefixOf l ||
  (str "Fixes").isPrefixOf l || (str "Refs").isPrefixOf l

def findBodyStartAux (len : Nat) : Nat → List Str → Option Nat
  | _, [] => none
  | i, l :: rest =>
    if (trim l).isEmpty && i + 1 < len then some (i + 1)
    else findBodyStartAux len (i + 1) rest

/-- First `i ≥ 1` with `lines[i].trim() === ""` and `i + 1 < lines.length`;
the body starts at `i + 1`. -/
def findBodyStart (lines : List Str) : Option Nat :=
  findBodyStartAux lines.length 1 (lines.drop 1)

structure Parsed where
  type : Str
  scope : Option Str
  subject : Str
  body : Option Str
  footer : Option Str
  breaking : Bool
  deriving DecidableEq

def parse (m : Str) : Option Parsed :=
  let lines := splitNl m
  match matchHeader (lines.headD []) with
  | none => none
  | some (t, sc, subj) =>
    let res : Str × Str × Bool :=
      match findBodyStart lines with
      | none => ([], [], false)
      | some bs =>
        let bodyLines := lines.drop bs
        match bodyLines.findIdx? footerLineStart with
        | some fi =>
          let b := trim (joinNl (bodyLines.take fi))
          let f := trim (joinNl (bodyLines.drop fi))
          (b, f, containsSub f breakingColon)
        | none =>
          let b := trim (joinNl bodyLines)
          (b, [], containsSub [] breakingColon)
    some { type := t
           scope := strOpt (sc.getD [])
           subject := subj
           body := strOpt res.1
           footer := strOpt res.2.1
           breaking := res.2.2 }

/-! ## src/core/formatter.js -/

structure Components where
  type : Str
  scope : Option Str
  subject : Str
  body : Option Str
  breaking : Option Str
  footer : Option Str

def wrapStep (maxLength : Nat) (st : List Str × Str) (word : Str) : List Str × Str :=
  if (st.2 ++ word).length ≤ maxLength then
    (st.1, st.2 ++ (if st.2.isEmpty then [] else [' ']) ++ word)
  else
    ((if st.2.isEmpty then st.1 else st.1 ++ [st.2]), word)

def wrapLines (text : Str) (maxLength : Nat) : List Str :=
  let st := (splitOnChar ' ' text).foldl (wrapStep maxLength) ([], [])
  if st.2.isEmpty then st.1 else st.1 ++ [st.2]

def wrapText (text : Str) (maxLength : Nat) : Str :=
  if text.isEmpty then [] else joinNl (wrapLines text maxLength)

def format (c : Components) : Str :=
  let header := c.type ++
    (if truthy c.scope then '(' :: (c.scope.getD []) ++ [')'] else []) ++
    ':' :: ' ' :: c.subject
  let parts := [header]
    ++ (if truthy c.body then [[], wrapText (c.body.getD []) 100] else [])
    ++ (if truthy c.breaking then [[], str "BREAKING CHANGE: " ++ c.breaking.getD []] else [])
    ++ (if truthy c.footer then
          (if truthy c.breaking then [] else [([] : Str)]) ++ [c.footer.getD []]
        else [])
  joinNl parts

/-- The formatter's own keyword table, in object insertion order. -/
def typeKeywords : List (Str × List Str) :=
  [(str "feat", [str "add", str "create", str "implement", str "introduce", str "new"]),
   (str "fix", [str "fix", str "resolve", str "correct", str "repair", str "patch", str "bug"]),
   (str "docs", [str "document", str "readme", str "docs", str "comment"]),
   (str "refactor", [str "refactor", str "restructure", str "reorganize", str "cleanup"]),
   (str "test", [str "test", str "testing", str "spec", str "coverage"]),
   (str "style", [str "format", str "styling", str "indent", str "whitespace"]),
   (str "chore", [str "update", str "upgrade", str "dependency", str "deps", str "maintain"]),
   (str "perf", [str "optimize", str "performance", str "faster", str "speed"])]

def detectType (message : Str) : Option Str :=
  let lower := message.map jsToLowerChar
  (typeKeywords.find? (fun p => p.2.any (fun k => containsSub lower k))).map
    (fun p => p.1)

/-- `message.replace(/^(a1|a2|…):\s*/i, "")`: the alternation succeeds on the
first alternative that is followed by a colon; then the greedy `\s*` is
consumed as well. -/
def stripAltColon (alts : List Str) (s : Str) : Str :=
  match alts.find? (fun a => (a ++ [':']).isPrefixOf (s.map jsToLowerChar)) with
  | some a => (s.drop (a.length + 1)).dropWhile jsWs
  | none => s

def lowerFirst : Str → Str
  | [] => []
  | c :: cs => jsToLowerChar c :: cs

structure AutoFmt where
  type : Str
  subject : Str
  confidence : String
  deriving DecidableEq

def autoFormat (raw : Str) (detectedType : Option Str) : AutoFmt :=
  let t := if truthy detectedType then detectedType.getD []
           else ((detectType raw).getD (str "chore"))
  let s0 := trim raw
  let s1 := stripAltColon [str "fix", str "fixes", str "fixed", str "fixing"] s0
  let s2 := stripAltColon [str "add", str "adds", str "added", str "adding"] s1
  let s3 := stripAltColon [str "update", str "updates", str "updated", str "updating"] s2
  let s4 := lowerFirst s3
  let s5 := if endsWithPeriod s4 then s4.dropLast else s4
  let s6 := if 72 < s5.length then s5.take 69 ++ str "..." else s5
  { type := t
    subject := s6
    confidence := if truthy detectedType then "high" else "medium" }

structure Advice where
  type : String
  message : String
  deriving DecidableEq

structure AnalyzeRes where
  valid : Bool
  suggestions : List Advice
  deriving DecidableEq

def analyzeLengthMsg (n : Nat) : String :=
  String.mk (str "Subject is " ++ natStr n ++ str " chars (max 72). Consider shortening.")

/-- `/^(adds|adding|added|fixes|fixing|fixed|updates|updating|updated)/i`:
note there is no `\s` after the verb here, unlike `isImperative`. -/
def analyzeNonImp (s : Str) : Bool :=
  let ls := s.map jsToLowerChar
  [str "adds", str "adding", str "added", str "fixes", str "fixing", str "fixed",
   str "updates", str "updating", str "updated"].any (fun w => w.isPrefixOf ls)

/-- `analyzeSubject`.  On the empty string `subject[0]` is `undefined` and
`subject[0].toUpperCase()` raises a TypeError; the raised exception is
modelled as `none`. -/
def analyzeSubject (subject : Str) : Option AnalyzeRes :=
  let s1 : List Advice :=
    if 72 < subject.length then [⟨"length", analyzeLengthMsg subject.length⟩] else []
  let s2 := s1 ++
    (if analyzeNonImp subject then
      [⟨"mood", "Use imperative mood (e.g., \"add\" not \"adds\" or \"added\")"⟩] else [])
  match subject with
  | [] => none
  | c :: _ =>
    let s3 := s2 ++
      (if jsToUpperChar c = c then [⟨"case", "Start with lowercase letter"⟩] else [])
    let s4 := s3 ++
      (if endsWithPeriod subject then [⟨"punctuation", "Remove trailing period"⟩] else [])
    some { valid := s4.isEmpty, suggestions := s4 }

/-! ## Lemmas about the string model -/

theorem splitOnChar_ne_nil (sep : Char) (s : Str) : splitOnChar sep s ≠ [] := by
  induction s with
  | nil => simp [splitOnChar]
  | cons c cs ih =>
    simp only [splitOnChar]
    split
    · simp
    · cases h : splitOnChar sep cs <;> simp

theorem splitOnChar_cons_sep (sep : Char) (cs : Str) :
    splitOnChar sep (sep :: cs) = [] :: splitOnChar sep cs := by
  simp [splitOnChar]

theorem splitOnChar_cons_ne (sep c : Char) (cs : Str) (hc : c ≠ sep) :
    splitOnChar sep (c :: cs) =
      (c :: (splitOnChar sep cs).headD []) :: (splitOnChar sep cs).tail := by
  simp only [splitOnChar, if_neg hc]
  cases h : splitOnChar sep cs with
  | nil => exact absurd h (splitOnChar_ne_nil sep cs)
  | cons l ls => rfl

theorem splitOnChar_append_cons (sep : Char) (a b : Str) :
    splitOnChar sep (a ++ sep :: b) = splitOnChar sep a ++ splitOnChar sep b := by
  induction a with
  | nil => simp [splitOnChar]
  | cons c cs ih =>
    rcases eq_or_ne c sep with rfl | hc
    · rw [List.cons_append, splitOnChar_cons_sep, splitOnChar_cons_sep, ih]
      rfl
    · rw [List.cons_append, splitOnChar_cons_ne sep c _ hc,
        splitOnChar_cons_ne sep c _ hc, ih]
      cases h : splitOnChar sep cs with
      | nil => exact absurd h (splitOnChar_ne_nil sep cs)
      | cons l ls => simp

theorem splitOnChar_of_no_sep (sep : Char) (s : Str) (h : ∀ c ∈ s, c ≠ sep) :
    splitOnChar sep s = [s] := by
  induction s with
  | nil => rfl
  | cons c cs ih =>
    rw [splitOnChar_cons_ne sep c cs (h c (List.mem_cons_self c cs)),
      ih (fun x hx => h x (List.mem_cons_of_mem c hx))]
    rfl

theorem sublist_of_mem_splitOnChar (sep : Char) (s p : Str)
    (h : p ∈ splitOnChar sep s) : p.Sublist s := by
  induction s generalizing p with
  | nil =>
    simp [splitOnChar] at h
    simp [h]
  | cons c cs ih =>
    rcases eq_or_ne c sep with rfl | hc
    · rw [splitOnChar_cons_sep] at h
      cases h with
      | head => exact List.nil_sublist _
      | tail _ hp => exact (ih p hp).cons _
    · rw [splitOnChar_cons_ne sep c cs hc] at h
      cases hsp : splitOnChar sep cs with
      | nil => exact absurd hsp (splitOnChar_ne_nil sep cs)
      | cons l ls =>
        rw [hsp] at h
        simp only [List.headD_cons, List.tail_cons, List.mem_cons] at h
        rcases h with rfl | hp
        · have hl : l ∈ splitOnChar sep cs := by
            rw [hsp]; exact List.mem_cons_self l ls
          exact (ih l hl).cons₂ c
        · have hl : p ∈ splitOnChar sep cs := by
            rw [hsp]; exact List.mem_cons_of_mem l hp
          exact (ih p hl).cons c

theorem no_sep_of_mem_splitOnChar (sep : Char) (s p : Str)
    (h : p ∈ splitOnChar sep s) : sep ∉ p := by
  induction s generalizing p with
  | nil =>
    simp [splitOnChar] at h
    simp [h]
  | cons c cs ih =>
    rcases eq_or_ne c sep with rfl | hc
    · rw [splitOnChar_cons_sep] at h
      cases h with
      | head => simp
      | tail _ hp => exact ih p hp
    · rw [splitOnChar_cons_ne sep c cs hc] at h
      cases hsp : splitOnChar sep cs with
      | nil => exact absurd hsp (splitOnChar_ne_nil sep cs)
      | cons l ls =>
        rw [hsp] at h
        simp only [List.headD_cons, List.tail_cons, List.mem_cons] at h
        rcases h with rfl | hp
        · have hl : sep ∉ l :=
            ih l (by rw [hsp]; exact List.mem_cons_self l ls)
          intro hm
          rcases List.mem_cons.mp hm with heq | hm
          · exact hc heq.symm
          · exact hl hm
        · exact ih p (by rw [hsp]; exact List.mem_cons_of_mem l hp)

theorem joinNl_cons_cons (x y : Str) (xs : List Str) :
    joinNl (x :: y :: xs) = x ++ '\n' :: joinNl (y :: xs) := by
  show joinSep ['\n'] (x :: y :: xs) = x ++ '\n' :: joinSep ['\n'] (y :: xs)
  simp [joinSep]

theorem splitNl_joinNl (ls : List Str) (h : ls ≠ []) :
    splitNl (joinNl ls) = ls.flatMap splitNl := by
  induction ls with
  | nil => exact absurd rfl h
  | cons x xs ih =>
    cases xs with
    | nil => simp [joinNl, joinSep, splitNl]
    | cons y ys =>
      rw [joinNl_cons_cons]
      show splitOnChar '\n' (x ++ '\n' :: joinNl (y :: ys)) = _
      rw [splitOnChar_append_cons, List.flatMap_cons]
      have hxs := ih (by simp)
      rw [← hxs]
      rfl

theorem splitNl_of_no_nl (s : Str) (h : ∀ c ∈ s, c ≠ '\n') : splitNl s = [s] :=
  splitOnChar_of_no_sep '\n' s h

theorem trim_eq_nil_iff (s : Str) : trim s = [] ↔ ∀ c ∈ s, jsWs c := by
  unfold trim
  rw [List.reverse_eq_nil_iff, List.dropWhile_eq_nil_iff]
  constructor
  · intro h c hc
    rcases List.mem_append.mp
        (by rw [List.takeWhile_append_dropWhile (p := jsWs)]; exact hc :
          c ∈ s.takeWhile jsWs ++ s.dropWhile jsWs) with h1 | h1
    · exact List.mem_takeWhile_imp h1
    · exact h c (List.mem_reverse.mpr h1)
  · intro h c hc
    exact h c (List.dropWhile_sublist jsWs |>.subset (List.mem_reverse.mp hc))

theorem trim_ne_nil_of_mem (s : Str) (c : Char) (hc : c ∈ s) (hw : ¬ jsWs c) :
    ¬ (trim s).isEmpty := by
  rw [List.isEmpty_iff, trim_eq_nil_iff]
  intro h
  exact hw (h c hc)

theorem map_ne_of_changed {f : Char → Char} {l : Str} {c : Char}
    (hc : c ∈ l) (hne : f c ≠ c) : l.map f ≠ l := by
  induction l with
  | nil => cases hc
  | cons x xs ih =>
    intro heq
    injection heq with h1 h2
    rcases List.mem_cons.mp hc with rfl | hm
    · exact hne h1
    · exact ih hm h2

theorem toLower_ne_of_upper (c : Char) (h1 : 'A' ≤ c) (h2 : c ≤ 'Z') :
    jsToLowerChar c ≠ c := by
  have hb : ∀ n, n < 91 → 65 ≤ n → Char.toLower (Char.ofNat n) ≠ Char.ofNat n := by
    decide
  have hc : c = Char.ofNat c.toNat := (Char.ofNat_toNat c).symm
  have h90 : c.toNat < 91 := Nat.lt_succ_of_le h2
  intro heq
  exact hb c.toNat h90 h1 (by rw [← hc]; exact heq)

/-! ## Claim theorems -/

/-- C9: an empty or whitespace-only message is rejected with exactly the
single error "Commit message cannot be empty" and no further checks run. -/
theorem validate_empty_message (v : Validator) (m : Str) (hm : ∀ c ∈ m, jsWs c) :
    validate v m = { valid := false, errors := [emptyErr] } := by
  have ht : (trim m).isEmpty = true := by
    rw [List.isEmpty_iff, trim_eq_nil_iff]
    exact hm
  unfold validate
  rw [ht]
  simp

/-- C9 witness: the whitespace-only message `"  \t\n "` and the empty
message both yield exactly the single emptiness error. -/
theorem validate_empty_message_witness :
    validate (mkValidator noOverride) (str "  \t\n ") =
      { valid := false, errors := [emptyErr] } ∧
    validate (mkValidator noOverride) [] =
      { valid := false, errors := [emptyErr] } :=
  ⟨validate_empty_message _ _ (by decide), validate_empty_message _ _ (by decide)⟩

/-- C4: on the empty subject `analyzeSubject` evaluates
`subject[0].toUpperCase()` with `subject[0]` undefined and raises a
TypeError (modelled as `none`) instead of returning a `{valid, suggestions}`
result, contradicting the documented totality. -/
theorem analyzeSubject_empty_throws : analyzeSubject [] = none := rfl

/-- C6 counterexample: `autoFormat("fixed login bug")` does not return the
subject "login bug" claimed by the spec: the prefix-strip regexes all
require a colon right after the verb, and "fixed login bug" has none. -/
theorem autoFormat_keeps_fixed_cex :
    (autoFormat (str "fixed login bug") none).subject ≠ str "login bug" := by
  decide

/-- C6 amended: `autoFormat("fixed login bug")` with no pre-detected type
returns type "fix" (detected from the "fix" keyword substring), the unchanged
subject "fixed login bug" (no colon, so no prefix is stripped) and
confidence "medium". -/
theorem autoFormat_fixed_login_bug :
    autoFormat (str "fixed login bug") none =
      { type := str "fix", subject := str "fixed login bug",
        confidence := "medium" } := by
  decide

def typesOverride : OverrideCfg := { types := some [str "foo"] }

/-- C5 counterexample: overriding the types list does not change which type
tokens the membership check accepts: with override `types: ["foo"]` the
validator still rejects "foo: add login" and still accepts "feat: add login",
and its `validTypes` is not the overridden list. -/
theorem override_types_cex :
    (mkValidator typesOverride).validTypes ≠ [str "foo"] ∧
    (validate (mkValidator typesOverride) (str "foo: add login")).valid = false ∧
    invalidTypeErr (mkValidator typesOverride).validTypes (str "foo") ∈
      (validate (mkValidator typesOverride) (str "foo: add login")).errors ∧
    (validate (mkValidator typesOverride) (str "feat: add login")).valid = true := by
  decide

/-- C5 amended: the constructor merges the override entries onto the
documented `defaults.rules` field by field, but the types list is not part
of that merge: an overriding `types` entry only lands in the unused
`config.types` slot and `validTypes` is always the built-in default list,
so the membership check is unaffected by overrides. -/
theorem mkValidator_merge (o : OverrideCfg) :
    (mkValidator o).validTypes = defaultTypeValues ∧
    (mkValidator o).config.maxSubjectLength = o.maxSubjectLength.getD 72 ∧
    (mkValidator o).config.minSubjectLength = o.minSubjectLength.getD 3 ∧
    (mkValidator o).config.maxLineLength = o.maxLineLength.getD 100 ∧
    (mkValidator o).config.enforceImperative = o.enforceImperative.getD true ∧
    (mkValidator o).config.subjectCase = o.subjectCase.getD "lowercase" ∧
    (mkValidator o).config.allowBreakingChanges =
      o.allowBreakingChanges.getD [str "feat", str "fix"] ∧
    (mkValidator o).config.types = o.types :=
  ⟨rfl, rfl, rfl, rfl, rfl, rfl, rfl, rfl⟩

/-- C8: `validate("FEAT(auth): add login")` is invalid, its errors contain
the lowercase-type error and the (distinct) invalid-type membership error;
and for every header whose matched type contains an uppercase letter the
lowercase check fires regardless of the membership check. -/
theorem type_case_check_independent :
    ((validate (mkValidator noOverride) (str "FEAT(auth): add login")).valid = false ∧
     typeLowercaseErr ∈
       (validate (mkValidator noOverride) (str "FEAT(auth): add login")).errors ∧
     invalidTypeErr (mkValidator noOverride).validTypes (str "FEAT") ∈
       (validate (mkValidator noOverride) (str "FEAT(auth): add login")).errors ∧
     typeLowercaseErr ≠ invalidTypeErr (mkValidator noOverride).validTypes (str "FEAT")) ∧
    ∀ hdr t sc subj, matchHeader hdr = some (t, sc, subj) →
      ∀ c ∈ t, 'A' ≤ c → c ≤ 'Z' →
        typeLowercaseErr ∈ validateHeader (mkValidator noOverride) hdr := by
  constructor
  · decide
  · intro hdr t sc subj hm c hc h1 h2
    have hne : ¬ (t.map jsToLowerChar = t) :=
      map_ne_of_changed hc (toLower_ne_of_upper c h1 h2)
    unfold validateHeader
    rw [hm]
    simp [hne]

/-- C8 witness: the general part applied at the concrete header
"Fix: add login". -/
theorem type_case_check_independent_witness :
    typeLowercaseErr ∈ validateHeader (mkValidator noOverride) (str "Fix: add login") :=
  type_case_check_independent.2 (str "Fix: add login") (str "Fix") none
    (str "add login") (by decide) 'F' (by decide) (by decide) (by decide)

/-- C10: `validate` never inspects the second line: two messages with the
same non-whitespace-only first line and identical lines from the third line
on validate identically, whatever their second lines are. -/
theorem validate_ignores_second_line (v : Validator) (m1 m2 h a b : Str)
    (rest : List Str) (h1 : splitNl m1 = h :: a :: rest)
    (h2 : splitNl m2 = h :: b :: rest) (hh : ¬ ∀ c ∈ h, jsWs c) :
    validate v m1 = validate v m2 := by
  push_neg at hh
  obtain ⟨c, hc, hw⟩ := hh
  have hm1 : c ∈ m1 := by
    have hmem : h ∈ splitNl m1 := by rw [h1]; exact List.mem_cons_self _ _
    exact (sublist_of_mem_splitOnChar '\n' m1 h hmem).subset hc
  have hm2 : c ∈ m2 := by
    have hmem : h ∈ splitNl m2 := by rw [h2]; exact List.mem_cons_self _ _
    exact (sublist_of_mem_splitOnChar '\n' m2 h hmem).subset hc
  have hwb : ¬ jsWs c := by simpa using hw
  have e1 : (trim m1).isEmpty = false := by
    rw [← Bool.not_eq_true]
    exact trim_ne_nil_of_mem m1 c hm1 hwb
  have e2 : (trim m2).isEmpty = false := by
    rw [← Bool.not_eq_true]
    exact trim_ne_nil_of_mem m2 c hm2 hwb
  have ne1 : m1.isEmpty = false := by
    rw [← Bool.not_eq_true, List.isEmpty_iff]
    exact List.ne_nil_of_mem hm1
  have ne2 : m2.isEmpty = false := by
    rw [← Bool.not_eq_true, List.isEmpty_iff]
    exact List.ne_nil_of_mem hm2
  unfold validate
  rw [ne1, ne2, e1, e2]
  simp only [Bool.or_self, Bool.false_or, if_neg (by simp : ¬ (false = true))]
  rw [h1, h2]
  rfl

/-- C10 witness: two concrete messages differing only in the second line. -/
theorem validate_ignores_second_line_witness :
    validate (mkValidator noOverride)
        (str "feat: add x\nthis second line is very different and long\ntail") =
      validate (mkValidator noOverride) (str "feat: add x\nB\ntail") :=
  validate_ignores_second_line _ _ _ (str "feat: add x")
    (str "this second line is very different and long") (str "B") [str "tail"]
    (by decide) (by decide) (by decide)

theorem containsSub_nil (pat : Str) (h : pat ≠ []) : containsSub [] pat = false := by
  cases pat with
  | nil => exact absurd rfl h
  | cons c cs => simp [containsSub, List.isPrefixOf]

theorem strOpt_ne_some_nil (s : Str) : strOpt s ≠ some [] := by
  unfold strOpt
  split
  · simp
  · rename_i h
    simp only [ne_eq, Option.some.injEq]
    intro heq
    rw [heq] at h
    simp at h

theorem strOpt_of_ne_nil (s : Str) (h : s ≠ []) : strOpt s = some s := by
  unfold strOpt
  rw [if_neg (by simpa [List.isEmpty_iff] using h)]

/-- C2: when the header matches and a trailing block exists after the first
blank line, `parse` splits the block at the first line starting with
"BREAKING CHANGE:", "Closes", "Fixes" or "Refs": the part before it is the
trimmed body and the rest the trimmed footer (the whole block is the body
and the footer is absent when no such line exists); `breaking` holds iff the
footer contains the literal "BREAKING CHANGE:"; and scope, body and footer
are never the empty string. -/
theorem parse_trailing_block (m : Str) (p : Parsed) (hp : parse m = some p)
    (k : Nat) (hk : findBodyStart (splitNl m) = some k) :
    (match ((splitNl m).drop k).findIdx? footerLineStart with
     | some i =>
       p.body = strOpt (trim (joinNl (((splitNl m).drop k).take i))) ∧
       p.footer = strOpt (trim (joinNl (((splitNl m).drop k).drop i)))
     | none =>
       p.body = strOpt (trim (joinNl ((splitNl m).drop k))) ∧
       p.footer = none) ∧
    (p.breaking = true ↔
      ∃ f, p.footer = some f ∧ containsSub f breakingColon = true) ∧
    p.scope ≠ some [] ∧ p.body ≠ some [] ∧ p.footer ≠ some [] := by
  cases hm : matchHeader ((splitNl m).headD []) with
  | none =>
    rw [parse, hm] at hp
    cases hp
  | some tss =>
    obtain ⟨t, sc, subj⟩ := tss
    cases hfi : ((splitNl m).drop k).findIdx? footerLineStart with
    | some i =>
      simp only [parse, hm, hk, hfi, Option.some.injEq] at hp
      subst hp
      refine ⟨⟨rfl, rfl⟩, ?_, strOpt_ne_some_nil _, strOpt_ne_some_nil _,
        strOpt_ne_some_nil _⟩
      set f := trim (joinNl (((splitNl m).drop k).drop i)) with hf
      by_cases hfe : f = []
      · rw [hfe]
        rw [containsSub_nil breakingColon (by decide)]
        simp [strOpt]
      · rw [strOpt_of_ne_nil f hfe]
        constructor
        · intro hb
          exact ⟨f, rfl, hb⟩
        · rintro ⟨f', hf', hb⟩
          have hff : f = f' := (Option.some.injEq _ _).mp hf'
          rw [hff]
          exact hb
    | none =>
      simp only [parse, hm, hk, hfi, Option.some.injEq] at hp
      subst hp
      refine ⟨⟨rfl, ?_⟩, ?_, strOpt_ne_some_nil _, strOpt_ne_some_nil _, ?_⟩
      · rfl
      · rw [containsSub_nil breakingColon (by decide)]
        simp [strOpt]
      · simp [strOpt]

def c2msg : Str := str "feat: add x\n\nsome body\nCloses #1\nBREAKING CHANGE: flag"

def c2parsed : Parsed :=
  { type := str "feat"
    scope := none
    subject := str "add x"
    body := some (str "some body")
    footer := some (str "Closes #1\nBREAKING CHANGE: flag")
    breaking := true }

/-- C2 witness: the theorem applied at a concrete message carrying a body,
an issue footer and a breaking marker. -/
theorem parse_trailing_block_witness :
    (match ((splitNl c2msg).drop 2).findIdx? footerLineStart with
     | some i =>
       c2parsed.body = strOpt (trim (joinNl (((splitNl c2msg).drop 2).take i))) ∧
       c2parsed.footer = strOpt (trim (joinNl (((splitNl c2msg).drop 2).drop i)))
     | none =>
       c2parsed.body = strOpt (trim (joinNl ((splitNl c2msg).drop 2))) ∧
       c2parsed.footer = none) ∧
    (c2parsed.breaking = true ↔
      ∃ f, c2parsed.footer = some f ∧ containsSub f breakingColon = true) ∧
    c2parsed.scope ≠ some [] ∧ c2parsed.body ≠ some [] ∧ c2parsed.footer ≠ some [] :=
  parse_trailing_block c2msg c2parsed (by decide) 2 (by decide)

theorem wrap_fold_invariant (maxL : Nat) (words : List Str)
    (hw : ∀ w ∈ words, ' ' ∉ w) (acc : List Str × Str)
    (hlines : ∀ l ∈ acc.1, l.length ≤ maxL + 1 ∨ ' ' ∉ l)
    (hcur : acc.2 = [] ∨ acc.2.length ≤ maxL + 1 ∨ ' ' ∉ acc.2) :
    (∀ l ∈ (words.foldl (wrapStep maxL) acc).1, l.length ≤ maxL + 1 ∨ ' ' ∉ l) ∧
    ((words.foldl (wrapStep maxL) acc).2 = [] ∨
     (words.foldl (wrapStep maxL) acc).2.length ≤ maxL + 1 ∨
     ' ' ∉ (words.foldl (wrapStep maxL) acc).2) := by
  induction words generalizing acc with
  | nil => exact ⟨hlines, hcur⟩
  | cons w ws ih =>
    rw [List.foldl_cons]
    have hww : ' ' ∉ w := hw w (List.mem_cons_self w ws)
    have hws : ∀ x ∈ ws, ' ' ∉ x := fun x hx => hw x (List.mem_cons_of_mem w hx)
    by_cases h1 : (acc.2 ++ w).length ≤ maxL
    · rw [wrapStep, if_pos h1]
      by_cases h2 : acc.2.isEmpty
      · have hnil : acc.2 = [] := List.isEmpty_iff.mp h2
        apply ih hws
        · exact hlines
        · right
          right
          rw [h2]
          simpa [hnil] using hww
      · apply ih hws
        · exact hlines
        · right
          left
          have : (acc.2 ++ (if acc.2.isEmpty then [] else [' ']) ++ w).length =
              acc.2.length + 1 + w.length := by
            simp [h2]
            omega
          rw [this]
          rw [List.length_append] at h1
          omega
    · rw [wrapStep, if_neg h1]
      by_cases h2 : acc.2.isEmpty
      · apply ih hws
        · simpa [h2] using hlines
        · right
          right
          exact hww
      · apply ih hws
        · intro l hl
          rw [if_neg h2] at hl
          rcases List.mem_append.mp hl with hm | hm
          · exact hlines l hm
          · rw [List.mem_singleton] at hm
            subst hm
            rcases hcur with hc | hc
            · exact absurd (List.isEmpty_iff.mpr hc) h2
            · exact hc
        · right
          right
          exact hww

theorem wrapLines_line_bound (text : Str) (maxL : Nat) :
    ∀ l ∈ wrapLines text maxL, l.length ≤ maxL + 1 ∨ ' ' ∉ l := by
  simp only [wrapLines]
  have hw : ∀ w ∈ splitOnChar ' ' text, ' ' ∉ w :=
    fun w hwm => no_sep_of_mem_splitOnChar ' ' text w hwm
  have hinv := wrap_fold_invariant maxL (splitOnChar ' ' text) hw ([], [])
    (by simp) (Or.inl rfl)
  intro l hl
  split at hl
  · exact hinv.1 l hl
  · rcases List.mem_append.mp hl with hm | hm
    · exact hinv.1 l hm
    · rw [List.mem_singleton] at hm
      subst hm
      rcases hinv.2 with hc | hc
      · rename_i hne
        exact absurd (List.isEmpty_iff.mpr hc) hne
      · exact hc

/-- C3 amended: for every text and positive maxLength, every line of
`wrapText text maxLength` has length at most maxLength + 1 (the length
check `(currentLine + word).length <= maxLength` does not count the joining
space), except lines that are a single word longer than the limit; and in
particular every line of `wrapText("a b c d", 3)` is at most 3 characters
long. -/
theorem wrapText_line_bound (text : Str) (maxL : Nat) (hpos : 0 < maxL) :
    (∀ l ∈ splitNl (wrapText text maxL),
      l.length ≤ maxL + 1 ∨ (maxL < l.length ∧ ' ' ∉ l)) ∧
    ∀ l ∈ splitNl (wrapText (str "a b c d") 3), l.length ≤ 3 := by
  refine ⟨?_, by decide⟩
  intro l hl
  rw [wrapText] at hl
  split at hl
  · simp [splitNl, splitOnChar] at hl
    left
    simp [hl]
  · rcases heq : wrapLines text maxL with _ | ⟨L0, Ls⟩
    · rw [heq] at hl
      simp [joinNl, joinSep, splitNl, splitOnChar] at hl
      left
      simp [hl]
    · rw [heq] at hl
      rw [splitNl_joinNl _ (by simp)] at hl
      rw [List.mem_flatMap] at hl
      obtain ⟨L, hL, hlL⟩ := hl
      have hLP : L.length ≤ maxL + 1 ∨ ' ' ∉ L := by
        have hb := wrapLines_line_bound text maxL L
        rw [heq] at hb
        exact hb hL
      have hsub := sublist_of_mem_splitOnChar '\n' L l hlL
      rcases hLP with hle | hns
      · left
        exact le_trans hsub.length_le hle
      · by_cases hl2 : l.length ≤ maxL + 1
        · left
          exact hl2
        · right
          exact ⟨by omega, fun hm => hns (hsub.subset hm)⟩

/-- C3 counterexample: `wrapText("a bc", 3)` is the single line "a bc" of
length 4 > 3 that contains a space (two words, each within the limit), so
not every output line is within maxLength or an overflowing single word. -/
theorem wrapText_exceeds_cex :
    splitNl (wrapText (str "a bc") 3) = [str "a bc"] ∧
    (str "a bc").length = 4 ∧ ' ' ∈ str "a bc" := by
  decide

/-- C3 witness: the amended bound applied at `wrapText("hello world", 3)`,
whose lines are the overflowing single words, and at the claim's own
`wrapText("a b c d", 3)` instance. -/
theorem wrapText_line_bound_witness :
    ((str "hello").length ≤ 3 + 1 ∨
      (3 < (str "hello").length ∧ ' ' ∉ str "hello")) ∧
    ∀ l ∈ splitNl (wrapText (str "a b c d") 3), l.length ≤ 3 :=
  ⟨(wrapText_line_bound (str "hello world") 3 (by decide)).1 (str "hello")
      (by decide),
   (wrapText_line_bound (str "hello world") 3 (by decide)).2⟩

theorem takeWhile_all_head (p : Char → Bool) (l r : Str)
    (hl : ∀ c ∈ l, p c) (hr : ∀ x, r.head? = some x → ¬ p x) :
    (l ++ r).takeWhile p = l := by
  rw [List.takeWhile_append_of_pos hl]
  cases r with
  | nil => simp
  | cons x xs =>
    rw [List.takeWhile_cons_of_neg (hr x rfl)]
    simp

theorem matchTail_space (subj : Str) (hs1 : subj ≠ [])
    (hs2 : ∀ c ∈ subj, isDotChar c)
    (hs3 : ∀ x, subj.head? = some x → ¬ jsWs x) :
    matchTail (' ' :: subj) = some subj := by
  unfold matchTail
  have htw : (' ' :: subj).takeWhile jsWs = [' '] := by
    rw [List.takeWhile_cons_of_pos (by decide)]
    cases subj with
    | nil => exact absurd rfl hs1
    | cons x xs =>
      rw [List.takeWhile_cons_of_neg (hs3 x rfl)]
  rw [htw]
  show matchTailAux (' ' :: subj) 1 = some subj
  have hok : tailOk (' ' :: subj) 1 = true := by
    unfold tailOk
    rw [List.drop_succ_cons, List.drop_zero]
    rw [Bool.and_eq_true, Bool.not_eq_true', List.all_eq_true]
    exact ⟨by rwa [← Bool.not_eq_true, List.isEmpty_iff], hs2⟩
  unfold matchTailAux
  rw [if_pos hok]
  rw [List.drop_succ_cons, List.drop_zero]


theorem scanScope_colon (x : Str) : scanScope (':' :: x) = (none, ':' :: x) := rfl

theorem finishHeader_colon (t : Str) (sc : Option Str) (r3 : Str) :
    finishHeader t (sc, ':' :: r3) =
      match matchTail r3 with
      | some subj => some (t, sc, subj)
      | none => none := rfl

theorem matchHeader_no_scope (t subj : Str)
    (ht1 : t ≠ []) (ht2 : ∀ c ∈ t, isWordChar c)
    (hs1 : subj ≠ []) (hs2 : ∀ c ∈ subj, isDotChar c)
    (hs3 : ∀ x, subj.head? = some x → ¬ jsWs x) :
    matchHeader (t ++ ':' :: ' ' :: subj) = some (t, none, subj) := by
  have h1 : (t ++ ':' :: ' ' :: subj).takeWhile isWordChar = t :=
    takeWhile_all_head _ _ _ ht2
      (by intro x hx; injection hx with hx; subst hx; decide)
  have h2 : t.isEmpty = false := by
    rwa [← Bool.not_eq_true, List.isEmpty_iff]
  have h3 : (t ++ ':' :: ' ' :: subj).drop t.length = ':' :: ' ' :: subj :=
    List.drop_left t _
  simp only [matchHeader, h1, h2, h3, Bool.false_eq_true, if_false,
    scanScope_colon, finishHeader_colon]
  rw [matchTail_space subj hs1 hs2 hs3]

theorem matchHeader_with_scope (t s subj : Str)
    (ht1 : t ≠ []) (ht2 : ∀ c ∈ t, isWordChar c)
    (hsne : s ≠ []) (hsch : ∀ c ∈ s, isScopeChar c)
    (hs1 : subj ≠ []) (hs2 : ∀ c ∈ subj, isDotChar c)
    (hs3 : ∀ x, subj.head? = some x → ¬ jsWs x) :
    matchHeader (t ++ '(' :: (s ++ ')' :: ':' :: ' ' :: subj)) =
      some (t, some s, subj) := by
  have h1 : (t ++ '(' :: (s ++ ')' :: ':' :: ' ' :: subj)).takeWhile isWordChar
      = t :=
    takeWhile_all_head _ _ _ ht2
      (by intro x hx; injection hx with hx; subst hx; decide)
  have h2 : t.isEmpty = false := by
    rwa [← Bool.not_eq_true, List.isEmpty_iff]
  have h3 : (t ++ '(' :: (s ++ ')' :: ':' :: ' ' :: subj)).drop t.length =
      '(' :: (s ++ ')' :: ':' :: ' ' :: subj) :=
    List.drop_left t _
  have h4 : (s ++ ')' :: ':' :: ' ' :: subj).takeWhile isScopeChar = s :=
    takeWhile_all_head _ _ _ hsch
      (by intro x hx; injection hx with hx; subst hx; decide)
  have h5 : s.isEmpty = false := by
    rwa [← Bool.not_eq_true, List.isEmpty_iff]
  have h6 : (s ++ ')' :: ':' :: ' ' :: subj).drop s.length =
      ')' :: ':' :: ' ' :: subj :=
    List.drop_left s _
  simp only [matchHeader, h1, h2, h3, Bool.false_eq_true, if_false, scanScope,
    h4, h5, h6]
  show finishHeader t (some s, ':' :: ' ' :: subj) = some (t, some s, subj)
  rw [finishHeader_colon, matchTail_space subj hs1 hs2 hs3]

/-- C7 amended: for components with body, breaking and footer all null, a
non-empty all-word-character type, an absent or non-empty word/hyphen scope,
and a non-empty subject that contains no line terminator and does not start
with whitespace, `parse (format c)` succeeds and recovers exactly the type,
scope and subject (with no body, no footer and breaking false). -/
theorem parse_format_header_roundtrip (c : Components)
    (hb : c.body = none) (hbr : c.breaking = none) (hf : c.footer = none)
    (ht1 : c.type ≠ []) (ht2 : ∀ x ∈ c.type, isWordChar x)
    (hsc : ∀ s, c.scope = some s → s ≠ [] ∧ ∀ x ∈ s, isScopeChar x)
    (hs1 : c.subject ≠ []) (hs2 : ∀ x ∈ c.subject, isDotChar x)
    (hs3 : ∀ x, c.subject.head? = some x → ¬ jsWs x) :
    parse (format c) = some
      { type := c.type
        scope := c.scope
        subject := c.subject
        body := none
        footer := none
        breaking := false } := by
  cases hscc : c.scope with
  | none =>
    have hdr : format c = c.type ++ ':' :: ' ' :: c.subject := by
      simp [format, hb, hbr, hf, hscc, truthy, joinNl, joinSep]
    have hm : matchHeader (c.type ++ ':' :: ' ' :: c.subject) =
        some (c.type, none, c.subject) :=
      matchHeader_no_scope _ _ ht1 ht2 hs1 hs2 hs3
    have hnl : ∀ x ∈ c.type ++ ':' :: ' ' :: c.subject, x ≠ '\n' := by
      intro x hx heq
      subst heq
      rcases List.mem_append.mp hx with h | h
      · exact absurd (ht2 _ h) (by decide)
      · rcases List.mem_cons.mp h with h' | h'
        · exact absurd h' (by decide)
        · rcases List.mem_cons.mp h' with h'' | h''
          · exact absurd h'' (by decide)
          · exact absurd (hs2 _ h'') (by decide)
    have hsp : splitNl (c.type ++ ':' :: ' ' :: c.subject) =
        [c.type ++ ':' :: ' ' :: c.subject] := splitNl_of_no_nl _ hnl
    rw [hdr]
    simp only [parse, hsp, List.headD_cons, hm]
    simp [findBodyStart, findBodyStartAux, strOpt, hscc]
  | some s =>
    obtain ⟨hsne, hsch⟩ := hsc s hscc
    have hse : s.isEmpty = false := by
      rwa [← Bool.not_eq_true, List.isEmpty_iff]
    have hdr : format c =
        c.type ++ '(' :: (s ++ ')' :: ':' :: ' ' :: c.subject) := by
      simp [format, hb, hbr, hf, hscc, truthy, hse, joinNl, joinSep,
        List.cons_append, List.append_assoc]
    have hm := matchHeader_with_scope c.type s c.subject ht1 ht2 hsne hsch
      hs1 hs2 hs3
    have hnl : ∀ x ∈ c.type ++ '(' :: (s ++ ')' :: ':' :: ' ' :: c.subject),
        x ≠ '\n' := by
      intro x hx heq
      subst heq
      rcases List.mem_append.mp hx with h | h
      · exact absurd (ht2 _ h) (by decide)
      · rcases List.mem_cons.mp h with h' | h'
        · exact absurd h' (by decide)
        · rcases List.mem_append.mp h' with h'' | h''
          · exact absurd (hsch _ h'') (by decide)
          · rcases List.mem_cons.mp h'' with h3 | h3
            · exact absurd h3 (by decide)
            · rcases List.mem_cons.mp h3 with h4 | h4
              · exact absurd h4 (by decide)
              · rcases List.mem_cons.mp h4 with h5 | h5
                · exact absurd h5 (by decide)
                · exact absurd (hs2 _ h5) (by decide)
    have hsp : splitNl (c.type ++ '(' :: (s ++ ')' :: ':' :: ' ' :: c.subject)) =
        [c.type ++ '(' :: (s ++ ')' :: ':' :: ' ' :: c.subject)] :=
      splitNl_of_no_nl _ hnl
    rw [hdr]
    simp only [parse, hsp, List.headD_cons, hm]
    simp [findBodyStart, findBodyStartAux, strOpt, hscc, hse]

def c7cex : Components :=
  { type := str "feat"
    scope := none
    subject := str " add login"
    body := none
    breaking := none
    footer := none }

/-- C7 counterexample: the header-only components with subject " add login"
format to "feat:   add login", and `parse` returns the subject "add login"
(the regex `\s*` swallows the leading whitespace), so `parse (format c)` does
not preserve the subject of every components value with null body, footer
and breaking. -/
theorem parse_format_cex :
    (parse (format c7cex)).map Parsed.subject ≠ some c7cex.subject := by
  decide

def c7good : Components :=
  { type := str "fix"
    scope := some (str "auth")
    subject := str "resolve login timeout issue"
    body := none
    breaking := none
    footer := none }

/-- C7 witness: the amended round-trip applied at concrete header-only
components with a scope. -/
theorem parse_format_header_roundtrip_witness :
    parse (format c7good) = some
      { type := c7good.type
        scope := c7good.scope
        subject := c7good.subject
        body := none
        footer := none
        breaking := false } :=
  parse_format_header_roundtrip c7good rfl rfl rfl (by decide) (by decide)
    (by
      intro s hs
      have h := Option.some.inj hs
      rw [← h]
      exact ⟨by decide, by decide⟩)
    (by decide) (by decide)
    (by
      intro x hx
      have h := Option.some.inj hx
      rw [← h]
      decide)

theorem validateBodyAux_nil (cfg : Rules) (ls : List Str)
    (h : ∀ l ∈ ls, ¬ cfg.maxLineLength < l.length) :
    ∀ i, validateBodyAux cfg i ls = [] := by
  induction ls with
  | nil => intro i; rfl
  | cons l ls ih =>
    intro i
    rw [validateBodyAux, if_neg (h l (List.mem_cons_self l ls))]
    rw [ih (fun x hx => h x (List.mem_cons_of_mem l hx)) (i + 1)]
    rfl

theorem mem_joinNl_head (h : Str) (ps : List Str) (x : Char) (hx : x ∈ h) :
    x ∈ joinNl (h :: ps) := by
  cases ps with
  | nil => exact hx
  | cons y ys =>
    rw [joinNl_cons_cons]
    exact List.mem_append.mpr (Or.inl hx)

theorem defaultTypeFacts :
    ∀ t ∈ (mkValidator noOverride).validTypes,
      t ≠ [] ∧ (∀ x ∈ t, isWordChar x) ∧ t.map jsToLowerChar = t ∧
      ∀ x ∈ t, ¬ jsWs x := by
  decide

/-- C1 amended: with the default rules, `validate (format c)` is valid for
every CommitComponents c whose type is a default valid type, whose scope is
absent or a non-empty word/hyphen string, whose subject has between
minSubjectLength (3) and 72 characters, contains no line terminator, starts
with a non-whitespace lowercase-stable character, has no trailing period and
no recognised non-imperative start, and whose body, breaking description and
footer (when present and non-empty) render to lines of at most
maxLineLength (100) characters. -/
theorem format_validate_roundtrip (c : Components)
    (htype : includes (mkValidator noOverride).validTypes c.type = true)
    (hs1 : 3 ≤ c.subject.length) (hs2 : c.subject.length ≤ 72)
    (hs3 : ∀ x ∈ c.subject, isDotChar x)
    (hs4 : ∀ x, c.subject.head? = some x → ¬ jsWs x ∧ jsToLowerChar x = x)
    (hs5 : endsWithPeriod c.subject = false)
    (hs6 : isImperative c.subject = true)
    (hsc : ∀ s, c.scope = some s → s ≠ [] ∧ ∀ x ∈ s, isScopeChar x)
    (hbody : ∀ s, c.body = some s → ¬ s.isEmpty →
      ∀ l ∈ splitNl (wrapText s 100), l.length ≤ 100)
    (hbrk : ∀ s, c.breaking = some s → ¬ s.isEmpty →
      ∀ l ∈ splitNl (str "BREAKING CHANGE: " ++ s), l.length ≤ 100)
    (hfoot : ∀ s, c.footer = some s → ¬ s.isEmpty →
      ∀ l ∈ splitNl s, l.length ≤ 100) :
    (validate (mkValidator noOverride) (format c)).valid = true := by
  have hsne : c.subject ≠ [] := by
    intro hnil
    rw [hnil] at hs1
    simp at hs1
  obtain ⟨x0, xs0, hsubj_cons⟩ := List.exists_cons_of_ne_nil hsne
  have hhead : c.subject.head? = some x0 := by rw [hsubj_cons]; rfl
  have hws : ∀ x, c.subject.head? = some x → ¬ jsWs x :=
    fun x hx => (hs4 x hx).1
  have htmem : c.type ∈ (mkValidator noOverride).validTypes := by
    obtain ⟨y, hy, hyx⟩ := List.any_eq_true.mp htype
    rwa [← of_decide_eq_true hyx]
  obtain ⟨htne, htw, htlow, htnws⟩ := defaultTypeFacts c.type htmem
  -- the canonical header and its regex match
  have hm : matchHeader (c.type ++
      (match c.scope with | none => [] | some s => '(' :: s ++ [')']) ++
      ':' :: ' ' :: c.subject) = some (c.type, c.scope, c.subject) := by
    cases hscc : c.scope with
    | none =>
      simpa using matchHeader_no_scope c.type c.subject htne htw hsne hs3 hws
    | some s =>
      obtain ⟨hsne2, hsch⟩ := hsc s hscc
      have := matchHeader_with_scope c.type s c.subject htne htw hsne2 hsch
        hsne hs3 hws
      simpa [List.append_assoc] using this
  have hscope_eq :
      (if truthy c.scope then '(' :: (c.scope.getD []) ++ [')'] else []) =
      (match c.scope with | none => [] | some s => '(' :: s ++ [')']) := by
    cases hscc : c.scope with
    | none => rfl
    | some s =>
      obtain ⟨hsne2, _⟩ := hsc s hscc
      have hse : s.isEmpty = false := by
        rwa [← Bool.not_eq_true, List.isEmpty_iff]
      simp [truthy, hse]
  have hnlhdr : ∀ ch ∈ (c.type ++
      (match c.scope with | none => [] | some s => '(' :: s ++ [')']) ++
      ':' :: ' ' :: c.subject), ch ≠ '\n' := by
    intro ch hch heq
    subst heq
    rcases List.mem_append.mp hch with h | h
    · rcases List.mem_append.mp h with h | h
      · exact absurd (htw _ h) (by decide)
      · cases hscc : c.scope with
        | none => rw [hscc] at h; cases h
        | some s =>
          obtain ⟨_, hsch⟩ := hsc s hscc
          rw [hscc] at h
          rcases List.mem_cons.mp h with h' | h'
          · exact absurd h' (by decide)
          · rcases List.mem_append.mp h' with h'' | h''
            · exact absurd (hsch _ h'') (by decide)
            · rcases List.mem_singleton.mp h'' with h3
              exact absurd h3 (by decide)
    · rcases List.mem_cons.mp h with h' | h'
      · exact absurd h' (by decide)
      · rcases List.mem_cons.mp h' with h'' | h''
        · exact absurd h'' (by decide)
        · exact absurd (hs3 _ h'') (by decide)
  set H : Str := c.type ++
    (match c.scope with | none => [] | some s => '(' :: s ++ [')']) ++
    ':' :: ' ' :: c.subject with hH
  set B : List Str :=
    (if truthy c.body then [([] : Str), wrapText (c.body.getD []) 100] else [])
    with hB
  set K : List Str :=
    (if truthy c.breaking then
      [([] : Str), str "BREAKING CHANGE: " ++ c.breaking.getD []] else [])
    with hK
  set F : List Str :=
    (if truthy c.footer then
      (if truthy c.breaking then [] else [([] : Str)]) ++ [c.footer.getD []]
    else []) with hF
  have hfmt : format c = joinNl (H :: (B ++ K ++ F)) := by
    simp only [format, hscope_eq, hH, hB, hK, hF]
    simp [List.append_assoc]
  have hlines : splitNl (format c) = H :: (B ++ K ++ F).flatMap splitNl := by
    rw [hfmt, splitNl_joinNl _ (by simp)]
    rw [List.flatMap_cons, splitNl_of_no_nl H hnlhdr]
    rfl
  have hsegs : ∀ seg ∈ B ++ K ++ F, ∀ l ∈ splitNl seg, l.length ≤ 100 := by
    intro seg hseg
    rcases List.mem_append.mp hseg with hseg | hseg
    · rcases List.mem_append.mp hseg with hseg | hseg
      · rw [hB] at hseg
        by_cases hb : truthy c.body
        · rw [if_pos hb] at hseg
          rcases List.mem_cons.mp hseg with rfl | hseg
          · intro l hl
            simp [splitNl, splitOnChar] at hl
            simp [hl]
          · rcases List.mem_cons.mp hseg with rfl | hseg
            · cases hcb : c.body with
              | none =>
                rw [hcb] at hb
                exact absurd hb (by decide)
              | some s =>
                have hsne3 : ¬ s.isEmpty := by
                  rw [hcb] at hb
                  simpa [truthy] using hb
                exact hbody s hcb hsne3
            · cases hseg
        · rw [if_neg hb] at hseg
          cases hseg
      · rw [hK] at hseg
        by_cases hk : truthy c.breaking
        · rw [if_pos hk] at hseg
          rcases List.mem_cons.mp hseg with rfl | hseg
          · intro l hl
            simp [splitNl, splitOnChar] at hl
            simp [hl]
          · rcases List.mem_cons.mp hseg with rfl | hseg
            · cases hck : c.breaking with
              | none =>
                rw [hck] at hk
                exact absurd hk (by decide)
              | some s =>
                have hsne3 : ¬ s.isEmpty := by
                  rw [hck] at hk
                  simpa [truthy] using hk
                exact hbrk s hck hsne3
            · cases hseg
        · rw [if_neg hk] at hseg
          cases hseg
    · rw [hF] at hseg
      by_cases hf : truthy c.footer
      · rw [if_pos hf] at hseg
        rcases List.mem_append.mp hseg with hseg | hseg
        · by_cases hk : truthy c.breaking
          · rw [if_pos hk] at hseg
            cases hseg
          · rw [if_neg hk] at hseg
            rcases List.mem_singleton.mp hseg with rfl
            intro l hl
            simp [splitNl, splitOnChar] at hl
            simp [hl]
        · rcases List.mem_singleton.mp hseg with rfl
          cases hcf : c.footer with
          | none =>
            rw [hcf] at hf
            exact absurd hf (by decide)
          | some s =>
            have hsne3 : ¬ s.isEmpty := by
              rw [hcf] at hf
              simpa [truthy] using hf
            exact hfoot s hcf hsne3
      · rw [if_neg hf] at hseg
        cases hseg
  have hPlines : ∀ l ∈ (B ++ K ++ F).flatMap splitNl, l.length ≤ 100 := by
    intro l hl
    obtain ⟨seg, hseg, hlseg⟩ := List.mem_flatMap.mp hl
    exact hsegs seg hseg l hlseg
  have hsubjval :
      validateSubject (mkValidator noOverride).config c.subject = [] := by
    have d1 : ¬ ((mkValidator noOverride).config.maxSubjectLength <
        c.subject.length) := by
      show ¬ (72 < c.subject.length)
      omega
    have d2 : ¬ (c.subject.length <
        (mkValidator noOverride).config.minSubjectLength) := by
      show ¬ (c.subject.length < 3)
      omega
    have hcv : subjCaseViolation c.subject = false := by
      rw [hsubj_cons]
      show subjCaseViolation (x0 :: xs0) = false
      unfold subjCaseViolation
      simp [(hs4 x0 hhead).2]
    simp only [validateSubject, if_neg d1, if_neg d2, hs5, hs6, hcv]
    simp
  have hvh : validateHeader (mkValidator noOverride) H = [] := by
    unfold validateHeader
    rw [hm]
    simp [htype, htlow, hsubjval]
  obtain ⟨tx, txs, htx⟩ := List.exists_cons_of_ne_nil htne
  have htxH : tx ∈ H := by
    rw [hH]
    exact List.mem_append.mpr (Or.inl (List.mem_append.mpr
      (Or.inl (by rw [htx]; exact List.mem_cons_self _ _))))
  have htxm : tx ∈ format c := by
    rw [hfmt]
    exact mem_joinNl_head H _ tx htxH
  have hgate1 : (format c).isEmpty = false := by
    rw [← Bool.not_eq_true, List.isEmpty_iff]
    exact List.ne_nil_of_mem htxm
  have hgate2 : (trim (format c)).isEmpty = false := by
    rw [← Bool.not_eq_true]
    exact trim_ne_nil_of_mem _ tx htxm
      (htnws tx (by rw [htx]; exact List.mem_cons_self _ _))
  have hbodyerrs : (if 2 < (splitNl (format c)).length then
      validateBody (mkValidator noOverride).config
        ((splitNl (format c)).drop 2) else []) = [] := by
    by_cases hlen : 2 < (splitNl (format c)).length
    · rw [if_pos hlen]
      unfold validateBody
      apply validateBodyAux_nil
      intro l hl
      rw [hlines] at hl
      have hdr2 : (H :: (B ++ K ++ F).flatMap splitNl).drop 2 =
          ((B ++ K ++ F).flatMap splitNl).drop 1 := rfl
      rw [hdr2] at hl
      have hle := hPlines l (List.mem_of_mem_drop hl)
      show ¬ (100 < l.length)
      omega
    · rw [if_neg hlen]
  have hcond : ((format c).isEmpty || (trim (format c)).isEmpty) = false := by
    rw [hgate1, hgate2]
    rfl
  simp only [validate, hcond, Bool.false_eq_true, if_false]
  rw [hbodyerrs, hlines, List.headD_cons, hvh]
  rfl

def c1short : Components :=
  { type := str "fix"
    scope := none
    subject := str "a"
    body := none
    breaking := none
    footer := none }

/-- C1 counterexample: the subject "a" meets every condition of the claim
(default type, lowercase-first, non-empty, ≤72 chars, no trailing period,
no non-imperative start), yet `validate (format c)` is invalid: the default
`minSubjectLength` of 3 rejects it with the too-short error. -/
theorem format_validate_cex :
    (includes (mkValidator noOverride).validTypes c1short.type = true ∧
     c1short.subject ≠ [] ∧ c1short.subject.length ≤ 72 ∧
     endsWithPeriod c1short.subject = false ∧
     isImperative c1short.subject = true ∧
     jsToLowerChar 'a' = 'a') ∧
    validate (mkValidator noOverride) (format c1short) =
      { valid := false, errors := [subjTooShortErr 1 3] } := by
  decide

def c1full : Components :=
  { type := str "fix"
    scope := some (str "auth")
    subject := str "resolve login timeout issue"
    body := some (str "the session token now refreshes before it expires")
    breaking := some (str "tokens issued before this release are rejected")
    footer := some (str "Closes #42") }

/-- C1 witness: the amended round-trip applied at concrete components
carrying a scope, a body, a breaking description and a footer. -/
theorem format_validate_roundtrip_witness :
    (validate (mkValidator noOverride) (format c1full)).valid = true :=
  format_validate_roundtrip c1full (by decide) (by decide) (by decide)
    (by decide)
    (by
      intro x hx
      rw [← Option.some.inj hx]
      decide)
    (by decide) (by decide)
    (by
      intro s hs
      rw [← Option.some.inj hs]
      exact ⟨by decide, by decide⟩)
    (by
      intro s hs hne
      rw [← Option.some.inj hs]
      decide)
    (by
      intro s hs hne
      rw [← Option.some.inj hs]
      decide)
    (by
      intro s hs hne
      rw [← Option.some.inj hs]
      decide)
